import Mathlib

/-!
Verification development for the `ws-scraper` repository (Go).

The Go sources under `fetch/` are shallowly embedded here.  Strings are
modelled as lists of characters (`Str`); the byte-oriented Go string
functions used by the scraper only ever split or compare on ASCII
characters, so the codepoint-level model agrees with the byte-level one
on every input the functions are applied to.  Fallible / panicking Go
code is modelled with `Except GoPanic`.
-/

/-- Go strings, modelled as lists of characters. -/
abbrev Str := List Char

/-- ASCII range check used to model the regexp character class `[0-9]`. -/
def isDigit (c : Char) : Bool :=
  48 ≤ c.toNat && c.toNat ≤ 57

/-- ASCII range check used to model the regexp character class `[a-zA-Z]`. -/
def isAlpha (c : Char) : Bool :=
  (97 ≤ c.toNat && c.toNat ≤ 122) || (65 ≤ c.toNat && c.toNat ≤ 90)

/-- The regexp character class `[a-zA-Z0-9]` from `standardCardSuffixRE`. -/
def isAlnum (c : Char) : Bool :=
  isAlpha c || isDigit c

/-- The regexp character class `[a-zA-Z0-9-]` (release group of `standardCardSuffixRE`). -/
def isAlnumHyphen (c : Char) : Bool :=
  isAlnum c || c = '-'

/-- The regexp character class `[a-zA-Z-]` (code group of `standardReleaseRE`). -/
def isAlphaHyphen (c : Char) : Bool :=
  isAlpha c || c = '-'

/-- Whitespace recognized by the model of Go `strings.TrimSpace`.
All whitespace appearing in the scraped fields is ASCII. -/
def isSpace (c : Char) : Bool :=
  c = ' ' || c = '\t' || c = '\n' || c = '\r' || c = '\x0b' || c = '\x0c'

/-- Model of Go `strings.TrimSpace`. -/
def trimSpace (s : Str) : Str :=
  ((s.dropWhile isSpace).reverse.dropWhile isSpace).reverse

/-- Model of Go `strings.HasPrefix`. -/
def startsWithL (pre s : Str) : Bool :=
  pre.isPrefixOf s

/-- Model of Go `strings.TrimPrefix`. -/
def trimPfx (s pre : Str) : Str :=
  if startsWithL pre s then s.drop pre.length else s

/-- Splits `s` around the first occurrence of the pattern `pat`
(`none` when `pat` does not occur).  Helper for the models of
`strings.Split` and `strings.Contains`. -/
def breakOn (pat : Str) : Str → Option (Str × Str)
  | [] => none
  | c :: r =>
    if startsWithL pat (c :: r) then some ([], (c :: r).drop pat.length)
    else (breakOn pat r).map (fun p => (c :: p.1, p.2))

/-- Model of Go `strings.Contains` (callers only pass non-empty patterns). -/
def containsSub (pat s : Str) : Bool :=
  (breakOn pat s).isSome

/-- Fuel-driven worker for `splitOnList`; every step removes at least one
character, so fuel `s.length` is always sufficient. -/
def splitOnAux (pat : Str) : Nat → Str → List Str
  | 0, s => [s]
  | fuel + 1, s =>
    match breakOn pat s with
    | none => [s]
    | some (b, a) => b :: splitOnAux pat fuel a

/-- Model of Go `strings.Split` for a non-empty separator. -/
def splitOnList (pat s : Str) : List Str :=
  if pat = [] then [s] else splitOnAux pat s.length s

/-- Model of Go `strings.ReplaceAll(cn, "%2B", "+")`: left-to-right,
non-overlapping replacement of the three-character pattern. -/
def replace2B : Str → Str
  | '%' :: '2' :: 'B' :: r => '+' :: replace2B r
  | c :: r => c :: replace2B r
  | [] => []

/-- Model of Go `strings.Replace(s, old, new, n)` for a single-character
pattern and `n ≥ 0`: replaces the first `n` occurrences. -/
def replaceCharN : Str → Char → Char → Nat → Str
  | [], _, _, _ => []
  | c :: r, old, new, n =>
    if c = old ∧ 0 < n then new :: replaceCharN r old new (n - 1)
    else c :: replaceCharN r old new n

/-- Model of Go `path.Split(u)`'s file component: everything after the
final `/` (the whole string when no `/` occurs). -/
def pathBase (u : Str) : Str :=
  (u.reverse.takeWhile (fun c => c ≠ '/')).reverse

/-- Filename stem: `strings.Split(pathBase(u), ".")[0]`, exactly the
expression used by the extractors on icon URLs. -/
def stem (u : Str) : Str :=
  (splitOnList ['.'] (pathBase u)).headD []

/-- Model of Go `strings.ToUpper` (all inputs it receives are ASCII file
name stems). -/
def upperStr (s : Str) : Str :=
  s.map Char.toUpper

/-- Model of Go `strconv.Itoa` on the non-negative lengths it is applied to. -/
def natToStr (n : Nat) : Str :=
  (toString n).toList

/-- `sanitizeCardNumber` from `fetch/card.go`.
`strings.Count(cn, "+")` for the one-character pattern is the character
count, and `strings.LastIndex(cn, "+") == len(cn)-1` (evaluated only when
the count is positive, hence on a non-empty string) says the last
character is `+`. -/
def sanitizeCardNumber (cn : Str) : Str :=
  let cn := replace2B cn
  let plusCnt := cn.count '+'
  if 0 < plusCnt then
    let repCnt := if cn.getLast? = some '+' then plusCnt - 1 else plusCnt
    replaceCharN cn '+' ' ' repCnt
  else cn

/-- Splits a string around its last `-` character (`none` when it has none). -/
def splitLastDash : Str → Option (Str × Str)
  | [] => none
  | c :: r =>
    match splitLastDash r with
    | some (b, a) => some (c :: b, a)
    | none => if c = '-' then some ([], r) else none

/-- Matching of the part of `standardCardSuffixRE` after the `/`, i.e.
`(?P<release>[a-zA-Z0-9-]+)-(?P<id>[a-zA-Z0-9]+\+?)$`, against the whole
of `T`.  The id group cannot contain `-` or `+`, so a backtracking search
necessarily consumes a trailing `+` with `\+?` and splits at the last `-`. -/
def matchTail (T : Str) : Option (Str × Str) :=
  match splitLastDash (if T.getLast? = some '+' then T.dropLast else T) with
  | some (b, c) =>
    if b ≠ [] ∧ b.all isAlnumHyphen ∧ c ≠ [] ∧ c.all isAlnum then
      some (b, c ++ if T.getLast? = some '+' then ['+'] else [])
    else none
  | none => none

/-- A match of `standardCardSuffixRE` that starts at the beginning of `s`
(the regexp is `$`-anchored, so every match runs to the end of the
string).  The `setID` group is greedy, so it is the maximal alphanumeric
run, and the following character must be the literal `/`. -/
def matchCardSuffixFull (s : Str) : Option (Str × Str × Str) :=
  match s.drop (s.takeWhile isAlnum).length, s.takeWhile isAlnum with
  | '/' :: T, _ :: _ => (matchTail T).map (fun p => (s.takeWhile isAlnum, p.1, p.2))
  | _, _ => none

/-- `standardCardSuffixRE.FindStringSubmatch`: the leftmost start
position at which a match exists (every match ends at the end of the string). -/
def findCardSuffix : Str → Option (Str × Str × Str)
  | [] => none
  | c :: r =>
    match matchCardSuffixFull (c :: r) with
    | some m => some m
    | none => findCardSuffix r

/-- A match of `standardReleaseRE` (`[a-zA-Z-]+[0-9]+`, unanchored)
starting at the beginning of `s`: the greedy code group is the maximal
`[a-zA-Z-]` run and it must be followed directly by a digit. -/
def matchReleaseAt (s : Str) : Option (Str × Str) :=
  let code := s.takeWhile isAlphaHyphen
  if code = [] then none
  else
    let pack := (s.drop code.length).takeWhile isDigit
    if pack = [] then none else some (code, pack)

/-- `standardReleaseRE.FindStringSubmatch`: leftmost match. -/
def findRelease : Str → Option (Str × Str)
  | [] => none
  | c :: r =>
    match matchReleaseAt (c :: r) with
    | some m => some m
    | none => findRelease r

/-- The release-pack id extracted from a release code: submatch 2 of
`standardReleaseRE` when it matches, empty otherwise (both branches of
`parseCardNumber` compute exactly this). -/
def relPackID (release : Str) : Str :=
  match findRelease release with
  | some (_, p) => p
  | none => []

/-- The four named results of `parseCardNumber`. -/
structure ParsedCardNumber where
  setID : Str := []
  release : Str := []
  releasePackID : Str := []
  id : Str := []
deriving Repr, DecidableEq

/-- `parseCardNumber` from `fetch/card.go`: strict regexp first, then the
permissive split on the first `/` and first `-`; with no `/` at all every
derived field stays at its zero value (the failure is only logged). -/
def parseCardNumber (cn : Str) : ParsedCardNumber :=
  match findCardSuffix cn with
  | some (a, b, c) =>
    { setID := a, release := b, releasePackID := relPackID b, id := c }
  | none =>
    if containsSub ['/'] cn then
      let setID := (splitOnList ['/'] cn).headD []
      let setInfo := splitOnList ['-'] ((splitOnList ['/'] cn).getD 1 [])
      if 1 < setInfo.length then
        { setID := setID, release := setInfo.headD [],
          releasePackID := relPackID (setInfo.headD []), id := setInfo.getD 1 [] }
      else { setID := setID }
    else {}

/-- `filterDash` from `fetch/card.go`. -/
def filterDash (st : Str) : Str :=
  if containsSub ['-'] st then [] else st

/-- Panics that the embedded Go code can raise. -/
inductive GoPanic where
  | indexOutOfRange
  | assignToNilMap
deriving Repr, DecidableEq

/-- Inline content of an ability node: a text run, a `<br/>` line break,
or an inline icon image with its `src` attribute. -/
inductive Inline where
  | text (s : Str)
  | br
  | img (src : Str)
deriving Repr, DecidableEq

/-- `triggersMap` from `fetch/card.go`. -/
def triggersMap : List (Str × Str) :=
  [("soul".toList, "SOUL".toList),
   ("salvage".toList, "COMEBACK".toList),
   ("draw".toList, "DRAW".toList),
   ("stock".toList, "POOL".toList),
   ("treasure".toList, "TREASURE".toList),
   ("shot".toList, "SHOT".toList),
   ("bounce".toList, "RETURN".toList),
   ("gate".toList, "GATE".toList),
   ("standby".toList, "STANDBY".toList),
   ("choice".toList, "CHOICE".toList)]

/-- Go map read `triggersMap[k]`: the zero value (empty string) when the
key is absent, so the lookup is total. -/
def triggersMapGet (k : Str) : Str :=
  (((triggersMap.find? (fun p => p.1 == k)).map (fun p => p.2))).getD []

/-- The replacement text `fmt.Sprintf("[%v]", triggersMap[stem])` that
`extractAbilities` substitutes for one inline icon. -/
def iconToken (src : Str) : Str :=
  '[' :: (triggersMapGet (stem src) ++ [']'])

/-- One `ReplaceWithHtml` call of `extractAbilities`: the first remaining
icon image, in document order, becomes its bracketed token. -/
def replaceFirstImg : List Inline → List Inline
  | [] => []
  | .img u :: rest => .text (iconToken u) :: rest
  | x :: rest => x :: replaceFirstImg rest

/-- Number of icon images in an ability node. -/
def countImgs (l : List Inline) : Nat :=
  (l.filter (fun x => match x with | .img _ => true | _ => false)).length

/-- Iterated one-at-a-time replacement. -/
def iterateReplace : Nat → List Inline → List Inline
  | 0, l => l
  | n + 1, l => iterateReplace n (replaceFirstImg l)

/-- The `Find("img").Each(...)` loop of `extractAbilities`: the icons
found in document order are replaced one at a time. -/
def rewriteIconsSeq (l : List Inline) : List Inline :=
  iterateReplace (countImgs l) l

/-- Escaping performed by the HTML renderer behind `Selection.Html()` on
text content (x/net/html escapes these six characters). -/
def escChar (c : Char) : Str :=
  if c = '&' then "&amp;".toList
  else if c = '\x27' then "&#39;".toList
  else if c = '<' then "&lt;".toList
  else if c = '>' then "&gt;".toList
  else if c = '"' then "&#34;".toList
  else if c = '\r' then "&#13;".toList
  else [c]

/-- Text-node escaping of the HTML renderer. -/
def escapeHtml (s : Str) : Str :=
  (s.map escChar).flatten

/-- Model of Go `html.UnescapeString` on the entities the renderer above
can produce. -/
def unescapeHtml : Str → Str
  | '&' :: 'a' :: 'm' :: 'p' :: ';' :: r => '&' :: unescapeHtml r
  | '&' :: '#' :: '3' :: '9' :: ';' :: r => '\x27' :: unescapeHtml r
  | '&' :: 'l' :: 't' :: ';' :: r => '<' :: unescapeHtml r
  | '&' :: 'g' :: 't' :: ';' :: r => '>' :: unescapeHtml r
  | '&' :: '#' :: '3' :: '4' :: ';' :: r => '"' :: unescapeHtml r
  | '&' :: '#' :: '1' :: '3' :: ';' :: r => '\r' :: unescapeHtml r
  | c :: r => c :: unescapeHtml r
  | [] => []

/-- Rendering of one inline node by `Selection.Html()` (void `br`
elements are always rendered as `<br/>`, which is the separator the Go
code splits on). -/
def renderInline : Inline → Str
  | .text s => escapeHtml s
  | .br => "<br/>".toList
  | .img u => "<img src=\"".toList ++ u ++ "\"/>".toList

/-- Inner HTML of an ability node. -/
def renderNode (l : List Inline) : Str :=
  (l.map renderInline).flatten

/-- `extractAbilities` from `fetch/card.go`: rewrite the icons one at a
time in document order, take the node's inner HTML, split it on `<br/>`,
trim each line, drop empty lines, and unescape the survivors.  The
`Html()` error path cannot occur for an in-memory node and is dropped. -/
def extractAbilities (node : List Inline) : List Str :=
  let rewritten := rewriteIconsSeq node
  let abilityNodeHtml := renderNode rewritten
  (((splitOnList "<br/>".toList abilityNodeHtml).map trimSpace).filter
    (fun l => l ≠ [])).map unescapeHtml

/-- Specification-shaped rewrite: every icon replaced simultaneously. -/
def rewriteIconsAll (l : List Inline) : List Inline :=
  l.map (fun x => match x with | .img u => .text (iconToken u) | x => x)

/-- The Card record from `fetch/card.go` (Go zero values as defaults;
the decoded image bytes are outside the model). -/
structure Card where
  cardNumber : Str := []
  setID : Str := []
  setName : Str := []
  expansionName : Str := []
  side : Str := []
  release : Str := []
  releasePackID : Str := []
  id : Str := []
  language : Str := []
  type : Str := []
  name : Str := []
  color : Str := []
  cost : Str := []
  level : Str := []
  power : Str := []
  soul : Str := []
  text : List Str := []
  traits : List Str := []
  triggers : List Str := []
  flavorText : Str := []
  imageURL : Str := []
  rarity : Str := []
  version : Str := []
deriving Repr, DecidableEq

/-- `CardModelVersion` from `fetch/card.go`. -/
def CardModelVersion : Str := "1".toList

/-- The fields of `siteConfig` the extraction layer reads (the other
fields configure network stages and do not influence extraction). -/
structure siteConfig where
  baseURL : Str := []
  languageCode : Str := []
deriving Repr, DecidableEq

/-- The English site configuration entry (extraction-relevant fields). -/
def enSiteConfig : siteConfig :=
  { baseURL := "https://en.ws-tcg.com/".toList, languageCode := "EN".toList }

/-- The Japanese site configuration entry (extraction-relevant fields). -/
def jpSiteConfig : siteConfig :=
  { baseURL := "https://ws-tcg.com/".toList, languageCode := "JP".toList }

/-- A Go `map[string]string` with last-write-wins assoc semantics. -/
abbrev GoStrMap := List (Str × Str)

/-- Go map assignment `m[k] = v`. -/
def mapSet (m : GoStrMap) (k v : Str) : GoStrMap :=
  (k, v) :: m

/-- Go map read `m[k]` (zero value for a missing key). -/
def mapGet (m : GoStrMap) (k : Str) : Str :=
  ((m.find? (fun p => p.1 == k)).map (fun p => p.2)).getD []

/-- URL resolution `joinPath(baseURL, sub)` (`url.Parse` plus
`ResolveReference`), simplified to the two shapes the card pages use: an
absolute URL is kept, anything else is appended to the base.  No settled
claim depends on the `imageURL` field. -/
def joinPathModel (base sub : Str) : Str :=
  if containsSub "://".toList sub then sub else base ++ sub

/-- One `<dl>` entry of the EN detail page, as the extractor queries it:
the `dt` text, the first `dd` text, the `src` of the first `img` inside
the `dd` (for Color/Side), and the `src` attributes of the `dd`'s child
elements in order (for Soul and Trigger; `none` = child without `src`). -/
structure EnDl where
  dt : Str := []
  ddText : Str := []
  ddImgSrc : Option Str := none
  ddChildren : List (Option Str) := []
deriving Repr, DecidableEq

/-- The selector results `extractDataEn` reads from one EN item fragment. -/
structure EnFragment where
  numberText : Str := []
  ttlText : Str := []
  imageSrc : Str := []
  dls : List EnDl := []
  serifText : Str := []
  abilityNode : List Inline := []
deriving Repr, DecidableEq

/-- One `.unit` span of the JP detail page: its text, the `src`
attributes of its child elements in order, and its children's texts (for
the trait case). -/
structure JpUnit where
  text : Str := []
  childSrcs : List (Option Str) := []
  childTexts : List Str := []
deriving Repr, DecidableEq

/-- The selector results `extractDataJp` reads from one JP item fragment. -/
structure JpFragment where
  titleSpanFirst : Str := []
  titleSpanLast : Str := []
  h4Text : Str := []
  imageSrc : Str := []
  abilityNode : List Inline := []
  units : List JpUnit := []
deriving Repr, DecidableEq

/-- An item fragment (goquery selection): it answers both extractors'
selector queries. -/
structure Selection where
  en : EnFragment := {}
  jp : JpFragment := {}
deriving Repr, DecidableEq

/-- `AttrOr("src", d)` on a child selection: attribute of the first node,
default when the selection is empty or the node has no such attribute. -/
def attrOrFirst (children : List (Option Str)) (d : Str) : Str :=
  match children with
  | [] => d
  | a :: _ => a.getD d

/-- The Trigger accumulation loop shared by both extractors: children in
order, a space before every entry but the first, each entry
`triggersMap[strings.Split(path.Split(src))[0]]`. -/
def triggerJoin (children : List (Option Str)) : Str :=
  List.intercalate " ".toList
    (children.map (fun a => triggersMapGet (stem (a.getD "yay".toList))))

/-- One iteration of the `dl` switch in `extractDataEn`, populating the
transient `info` map (unknown labels are only logged). -/
def enDlStep (info : GoStrMap) (d : EnDl) : GoStrMap :=
  let dt := trimSpace d.dt
  let ddText := trimSpace d.ddText
  if dt = "Card Type".toList then
    if ddText = "Event".toList then mapSet info "type".toList "EV".toList
    else if ddText = "Character".toList then mapSet info "type".toList "CH".toList
    else if ddText = "Climax".toList then mapSet info "type".toList "CX".toList
    else info
  else if dt = "Color".toList then
    match d.ddImgSrc with
    | some u => mapSet info "color".toList (upperStr (stem u))
    | none => info
  else if dt = "Cost".toList then mapSet info "cost".toList ddText
  else if dt = "Expansion".toList then mapSet info "expansion".toList ddText
  else if dt = "Level".toList then mapSet info "level".toList ddText
  else if dt = "Power".toList then mapSet info "power".toList ddText
  else if dt = "Rarity".toList then mapSet info "rarity".toList ddText
  else if dt = "Side".toList then
    match d.ddImgSrc with
    | some u => mapSet info "side".toList (upperStr (stem u))
    | none => info
  else if dt = "Soul".toList then
    mapSet info "soul".toList (natToStr d.ddChildren.length)
  else if dt = "Traits".toList then mapSet info "specialAttribute".toList ddText
  else if dt = "Trigger".toList then
    mapSet info "trigger".toList (upperStr (trimSpace (triggerJoin d.ddChildren)))
  else info

/-- The `info` map produced by the EN `dl` loop. -/
def enInfo (f : EnFragment) : GoStrMap :=
  f.dls.foldl enDlStep []

/-- One iteration of the `.unit` switch in `extractDataJp`. -/
def jpUnitStep (infos : GoStrMap) (u : JpUnit) : GoStrMap :=
  let txt := trimSpace u.text
  if startsWithL "色：".toList txt then
    mapSet infos "color".toList
      (upperStr (stem (attrOrFirst u.childSrcs "yay".toList)))
  else if startsWithL "種類：".toList txt then
    let cType := trimSpace (trimPfx txt "種類：".toList)
    if cType = "イベント".toList then mapSet infos "type".toList "EV".toList
    else if cType = "キャラ".toList then mapSet infos "type".toList "CH".toList
    else if cType = "クライマックス".toList then mapSet infos "type".toList "CX".toList
    else infos
  else if startsWithL "コスト：".toList txt then
    mapSet infos "cost".toList (trimSpace (trimPfx txt "コスト：".toList))
  else if startsWithL "フレーバー：".toList txt then
    mapSet infos "flavourText".toList (trimSpace (trimPfx txt "フレーバー：".toList))
  else if startsWithL "レベル：".toList txt then
    mapSet infos "level".toList (trimSpace (trimPfx txt "レベル：".toList))
  else if startsWithL "パワー：".toList txt then
    mapSet infos "power".toList (trimSpace (trimPfx txt "パワー：".toList))
  else if startsWithL "レアリティ：".toList txt then
    mapSet infos "rarity".toList (trimSpace (trimPfx txt "レアリティ：".toList))
  else if startsWithL "サイド：".toList txt then
    mapSet infos "side".toList
      (upperStr (stem (attrOrFirst u.childSrcs "yay".toList)))
  else if startsWithL "ソウル：".toList txt then
    mapSet infos "soul".toList (natToStr u.childSrcs.length)
  else if startsWithL "トリガー：".toList txt then
    mapSet infos "trigger".toList (upperStr (trimSpace (triggerJoin u.childSrcs)))
  else if startsWithL "特徴：".toList txt then
    let res := (u.childTexts.map trimSpace).flatten
    if containsSub "-".toList res then mapSet infos "specialAttribute".toList []
    else mapSet infos "specialAttribute".toList (trimSpace res)
  else infos

/-- The `infos` map produced by the JP `.unit` loop. -/
def jpInfo (f : JpFragment) : GoStrMap :=
  f.units.foldl jpUnitStep []

/-- Body of `extractDataEn` (everything covered by its `defer`/`recover`
guard).  None of its steps can panic, so it always returns `.ok`. -/
def extractDataEnBody (config : siteConfig) (f : EnFragment) : Except GoPanic Card :=
  let cardNumber := sanitizeCardNumber f.numberText
  let p := parseCardNumber cardNumber
  let cardName := f.ttlText
  let imageCardURL := f.imageSrc
  let info := enInfo f
  let flvr := trimSpace f.serifText
  let info := if flvr ≠ [] ∧ flvr ≠ "-".toList
    then mapSet info "flavourText".toList flvr else info
  let ability := extractAbilities f.abilityNode
  let card : Card :=
    { cardNumber := cardNumber
      setID := p.setID
      expansionName := mapGet info "expansion".toList
      side := mapGet info "side".toList
      release := p.release
      releasePackID := p.releasePackID
      id := p.id
      language := "EN".toList
      type := mapGet info "type".toList
      name := cardName
      level := filterDash (mapGet info "level".toList)
      cost := filterDash (mapGet info "cost".toList)
      flavorText := mapGet info "flavourText".toList
      color := mapGet info "color".toList
      power := filterDash (mapGet info "power".toList)
      rarity := mapGet info "rarity".toList
      text := ability
      version := CardModelVersion }
  let card := { card with imageURL := joinPathModel config.baseURL imageCardURL }
  let card := if mapGet info "specialAttribute".toList ≠ []
    then { card with traits := splitOnList "・".toList (mapGet info "specialAttribute".toList) }
    else card
  let card := if mapGet info "trigger".toList ≠ []
    then { card with triggers := splitOnList " ".toList (mapGet info "trigger".toList) }
    else card
  let card := if card.type = "CH".toList
    then { card with soul := mapGet info "soul".toList }
    else card
  Except.ok card

/-- Body of `extractDataJp` (everything covered by its `defer`/`recover`
guard).  The set-name step indexes `strings.Split(h4Text, ") -")[1]`,
which panics when the separator is absent. -/
def extractDataJpBody (config : siteConfig) (f : JpFragment) : Except GoPanic Card :=
  let titleSpan := f.titleSpanLast
  let cardNumber := sanitizeCardNumber titleSpan
  let p := parseCardNumber cardNumber
  match (splitOnList ") -".toList f.h4Text).get? 1 with
  | none => Except.error GoPanic.indexOutOfRange
  | some piece =>
    let setName := trimSpace piece
    let imageCardURL := f.imageSrc
    let ability := extractAbilities f.abilityNode
    let infos := jpInfo f
    let card : Card :=
      { cardNumber := titleSpan
        setID := p.setID
        setName := setName
        side := mapGet infos "side".toList
        release := p.release
        releasePackID := p.releasePackID
        id := p.id
        language := "JP".toList
        type := mapGet infos "type".toList
        name := trimSpace f.titleSpanFirst
        level := filterDash (mapGet infos "level".toList)
        flavorText := mapGet infos "flavourText".toList
        color := mapGet infos "color".toList
        power := filterDash (mapGet infos "power".toList)
        cost := filterDash (mapGet infos "cost".toList)
        rarity := mapGet infos "rarity".toList
        text := ability
        version := CardModelVersion }
    let card := { card with imageURL := joinPathModel config.baseURL imageCardURL }
    let card := if mapGet infos "specialAttribute".toList ≠ []
      then { card with traits := splitOnList "・".toList (mapGet infos "specialAttribute".toList) }
      else card
    let card := if mapGet infos "trigger".toList ≠ []
      then { card with triggers := splitOnList " ".toList (mapGet infos "trigger".toList) }
      else card
    let card := if card.type = "CH".toList
      then { card with soul := mapGet infos "soul".toList }
      else card
    Except.ok card

/-- The `defer`/`recover` guard of both extractors: a recovered panic is
logged and the function returns normally with its (unnamed, hence
zero-valued) Card result. -/
def recoverCard : Except GoPanic Card → Card
  | .ok c => c
  | .error _ => {}

/-- `extractDataEn` from `fetch/card.go` (body plus recover guard). -/
def extractDataEn (config : siteConfig) (f : EnFragment) : Card :=
  recoverCard (extractDataEnBody config f)

/-- `extractDataJp` from `fetch/card.go` (body plus recover guard). -/
def extractDataJp (config : siteConfig) (f : JpFragment) : Card :=
  recoverCard (extractDataJpBody config f)

/-- `extractData` from `fetch/card.go`: dispatch on the site's language
code; an unsupported site is logged and yields the zero Card. -/
def extractData (config : siteConfig) (mainHTML : Selection) : Card :=
  if config.languageCode = "EN".toList then extractDataEn config mainHTML.en
  else if config.languageCode = "JP".toList then extractDataJp config mainHTML.jp
  else {}

/-- The Booster record from `fetch/cards.go` (Go zero values as defaults). -/
structure Booster where
  releaseCode : Str := []
  cards : List Card := []
deriving Repr, DecidableEq

/-- A Go `map[string]Booster` with last-write-wins assoc semantics. -/
abbrev BoosterMap := List (Str × Booster)

/-- Go map read `m[k]` (zero value for a missing key; reading from a nil
map is also legal and yields the zero value). -/
def bmapGet (m : BoosterMap) (k : Str) : Booster :=
  ((m.find? (fun p => p.1 == k)).map (fun p => p.2)).getD {}

/-- Go map assignment `m[k] = v` on a non-nil map. -/
def bmapSet (m : BoosterMap) (k : Str) (v : Booster) : BoosterMap :=
  (k, v) :: m

/-- One iteration of `boosterReducer.reduce` for one received Card.  The
reducer's map is `Option BoosterMap`, with `none` standing for a Go nil
map: reading from it yields the zero Booster, but the final assignment
`br.boosterMap[boosterCode] = boosterObj` panics on a nil map. -/
def boosterReduceStep (m : Option BoosterMap) (c : Card) :
    Except GoPanic (Option BoosterMap) :=
  let boosterCode := c.release
  let boosterObj := match m with | some gm => bmapGet gm boosterCode | none => {}
  let boosterObj := { boosterObj with releaseCode := boosterCode }
  let boosterObj := { boosterObj with cards := boosterObj.cards ++ [c] }
  match m with
  | none => Except.error GoPanic.assignToNilMap
  | some gm => Except.ok (some (bmapSet gm boosterCode boosterObj))

/-- `boosterReducer.reduce` consuming a finite card stream in arrival
order. -/
def boosterReduce (m : Option BoosterMap) (cards : List Card) :
    Except GoPanic (Option BoosterMap) :=
  cards.foldlM boosterReduceStep m

/-- `Boosters` from `fetch/cards.go`, restricted to its reduction of the
card stream: `var reducer boosterReducer` leaves `boosterMap` as a nil
map, and the reducer folds the stream over it. -/
def boostersRun (cards : List Card) : Except GoPanic (Option BoosterMap) :=
  boosterReduce none cards

/-- `cardListReducer.reduce` consuming a finite card stream in arrival
order (appends every card). -/
def cardListReduce (acc : List Card) (cards : List Card) : List Card :=
  cards.foldl (fun cs c => cs ++ [c]) acc

/-- Constants from `fetch/cards.go`: `maxRetries` and `baseBackoffDelay`
(1 second, in nanoseconds, the unit of Go `time.Duration`). -/
def maxRetries : Nat := 3

/-- `baseBackoffDelay = 1 * time.Second` in nanoseconds. -/
def baseBackoffDelay : Nat := 1000000000

/-- Outcome of one `proxy.Client.PostForm` attempt: a transport error
with its message, or a response with its status code. -/
inductive AttemptOutcome where
  | err (msg : Str)
  | resp (status : Nat)
deriving Repr, DecidableEq

/-- The transient error substrings recognized by `pageFetchWorker`. -/
def transientSubstrs : List Str :=
  ["connection reset by peer".toList, "EOF".toList, "connection refused".toList]

/-- Whether an error message matches one of the recognized transient
substrings. -/
def isTransientErr (msg : Str) : Bool :=
  transientSubstrs.any (fun t => containsSub t msg)

/-- What the loop body does with one attempt's outcome. -/
inductive AttemptEffect where
  | continueBan
  | forwardReadd
deriving Repr, DecidableEq

/-- The branch structure of the `pageFetchWorker` loop body: an error
message that contains a recognized transient substring is logged
differently but is banned and retried exactly like any other transport
error; a non-200 status is banned and retried; a 200 response is
forwarded and the proxy is re-added. -/
def attemptEffect : AttemptOutcome → AttemptEffect
  | .err msg =>
    if isTransientErr msg then AttemptEffect.continueBan
    else AttemptEffect.continueBan
  | .resp status =>
    if status ≠ 200 then AttemptEffect.continueBan else AttemptEffect.forwardReadd

/-- Observable behavior of `pageFetchWorker` while processing one link:
attempts made, the waits slept before retry attempts, the (0-based)
indices of attempts whose response was forwarded downstream, proxy
ban/readd counts, and whether the link was pushed back on the task's
page queue. -/
structure LinkResult where
  attemptsMade : Nat := 0
  waits : List Nat := []
  forwarded : List Nat := []
  banCount : Nat := 0
  readdCount : Nat := 0
  requeued : Option Str := none
deriving Repr, DecidableEq

/-- The retry loop of `pageFetchWorker` (`for attempt := 0; attempt <
maxRetries; attempt++`), driven by an oracle giving each attempt's
outcome and the jitter drawn for each retry.  The backoff slept before
attempt `i > 0` is `i * baseBackoffDelay + jitter i`. -/
def pageFetchGo (oracle : Nat → AttemptOutcome) (jitter : Nat → Nat) :
    Nat → Nat → LinkResult → LinkResult
  | _, 0, acc => acc
  | attempt, fuel + 1, acc =>
    let acc := if 0 < attempt
      then { acc with waits := acc.waits ++ [attempt * baseBackoffDelay + jitter attempt] }
      else acc
    let acc := { acc with attemptsMade := acc.attemptsMade + 1 }
    match attemptEffect (oracle attempt) with
    | .continueBan =>
      pageFetchGo oracle jitter (attempt + 1) fuel { acc with banCount := acc.banCount + 1 }
    | .forwardReadd =>
      { acc with readdCount := acc.readdCount + 1, forwarded := acc.forwarded ++ [attempt] }

/-- Processing of one link taken from the task's page queue by
`pageFetchWorker`: run the bounded retry loop; when no attempt succeeded
the link is put back on the same task's page queue. -/
def pageFetchWorkerLink (oracle : Nat → AttemptOutcome) (jitter : Nat → Nat)
    (link : Str) : LinkResult :=
  let r := pageFetchGo oracle jitter 0 maxRetries {}
  if r.forwarded = [] then { r with requeued := some link } else r

/-- A sample card carrying only a release code (used to exercise the
booster reducer). -/
def sampleCard : Card := { release := "W63".toList }

/-- A JP fragment whose `h4` heading lacks the `") -"` separator, so the
set-name step of `extractDataJp` panics with an index-out-of-range. -/
def panicJpFragment : JpFragment := { h4Text := "no separator here".toList }

/-- A JP fragment whose displayed card number contains a stray inline `+`. -/
def rwbyJpFragment : JpFragment :=
  { titleSpanFirst := "Sample".toList
    titleSpanLast := "RWBY/BRO2021-01+PR".toList
    h4Text := "Sample(RWBY/BRO2021-01+PR) - RWBY".toList }

/-- An EN fragment for an Event card whose detail table carries a
concrete Power value. -/
def evPowerEnFragment : EnFragment :=
  { numberText := "SS/WE41-E17".toList
    ttlText := "Sample Event".toList
    dls := [{ dt := "Card Type".toList, ddText := "Event".toList },
            { dt := "Power".toList, ddText := "5000".toList }] }

/-- The JP climax fixture: the dash placeholder in level / power / soul /
cost, climax card type, an icon inside the ability text. -/
def cxJpFragment : JpFragment :=
  { titleSpanFirst := "キラキラのお日様".toList
    titleSpanLast := "BD/W63-025".toList
    h4Text := "キラキラのお日様(BD/W63-025) -「バンドリ！」Vol.2".toList
    imageSrc := "/images/cardlist/b/bd_w63/bd_w63_025.png".toList
    abilityNode :=
      [Inline.text "【永】 パワーを＋1000。".toList, Inline.br,
       Inline.text "（".toList,
       Inline.img "/images/cardlist/_partimages/bounce.gif".toList,
       Inline.text "：手札に戻す）".toList]
    units :=
      [{ text := "サイド：".toList,
         childSrcs := [some "/images/cardlist/_partimages/w.gif".toList] },
       { text := "種類：クライマックス".toList },
       { text := "レベル：-".toList },
       { text := "色：".toList,
         childSrcs := [some "/images/cardlist/_partimages/yellow.gif".toList] },
       { text := "パワー：-".toList },
       { text := "ソウル：-".toList },
       { text := "コスト：-".toList },
       { text := "レアリティ：CR".toList },
       { text := "トリガー：".toList,
         childSrcs := [some "/images/cardlist/_partimages/soul.gif".toList,
                       some "/images/cardlist/_partimages/bounce.gif".toList] },
       { text := "特徴：".toList, childTexts := ["-".toList] },
       { text := "フレーバー：楽しい".toList }] }

/-- The `info` map of `extractDataEn` after the flavor-text step. -/
def enInfoF (f : EnFragment) : GoStrMap :=
  let flvr := trimSpace f.serifText
  if flvr ≠ [] ∧ flvr ≠ "-".toList
  then mapSet (enInfo f) "flavourText".toList flvr
  else enInfo f

/-- Replacing a `+` by a space, keeping every other character. -/
def plusToSpace (c : Char) : Char :=
  if c = '+' then ' ' else c

/-- Specification-shaped sanitization second pass: every `+` becomes a
space except a `+` in the final position. -/
def plusExceptTrailing (t : Str) : Str :=
  if t.getLast? = some '+'
  then t.dropLast.map plusToSpace ++ ['+']
  else t.map plusToSpace

/-- Whether a release code contains a letter-or-hyphen followed directly
by a digit (exactly when `standardReleaseRE` can match somewhere). -/
def hasCodeDigit : Str → Bool
  | a :: b :: r => (isAlphaHyphen a && isDigit b) || hasCodeDigit (b :: r)
  | _ => false

theorem mapGet_mapSet_ne (m : GoStrMap) {k k2 : Str} (v : Str) (h : k ≠ k2) :
    mapGet (mapSet m k v) k2 = mapGet m k2 := by
  simp only [mapGet, mapSet, List.find?, beq_eq_false_iff_ne, ne_eq]
  rw [show (k == k2) = false from beq_eq_false_iff_ne.mpr h]

/-- Closed form of the EN extractor. -/
theorem extractDataEn_eq (config : siteConfig) (f : EnFragment) :
    extractDataEn config f =
      { cardNumber := sanitizeCardNumber f.numberText
        setID := (parseCardNumber (sanitizeCardNumber f.numberText)).setID
        expansionName := mapGet (enInfoF f) "expansion".toList
        side := mapGet (enInfoF f) "side".toList
        release := (parseCardNumber (sanitizeCardNumber f.numberText)).release
        releasePackID := (parseCardNumber (sanitizeCardNumber f.numberText)).releasePackID
        id := (parseCardNumber (sanitizeCardNumber f.numberText)).id
        language := "EN".toList
        type := mapGet (enInfoF f) "type".toList
        name := f.ttlText
        level := filterDash (mapGet (enInfoF f) "level".toList)
        cost := filterDash (mapGet (enInfoF f) "cost".toList)
        flavorText := mapGet (enInfoF f) "flavourText".toList
        color := mapGet (enInfoF f) "color".toList
        power := filterDash (mapGet (enInfoF f) "power".toList)
        rarity := mapGet (enInfoF f) "rarity".toList
        text := extractAbilities f.abilityNode
        version := CardModelVersion
        imageURL := joinPathModel config.baseURL f.imageSrc
        traits := if mapGet (enInfoF f) "specialAttribute".toList ≠ []
          then splitOnList "・".toList (mapGet (enInfoF f) "specialAttribute".toList) else []
        triggers := if mapGet (enInfoF f) "trigger".toList ≠ []
          then splitOnList " ".toList (mapGet (enInfoF f) "trigger".toList) else []
        soul := if mapGet (enInfoF f) "type".toList = "CH".toList
          then mapGet (enInfoF f) "soul".toList else [] } := by
  simp only [extractDataEn, extractDataEnBody, recoverCard, enInfoF]
  split <;> split <;> split <;> split <;> rfl

/-- Closed form of the JP extractor body on the non-panicking path. -/
theorem extractDataJpBody_eq (config : siteConfig) (f : JpFragment) (piece : Str)
    (h : (splitOnList ") -".toList f.h4Text).get? 1 = some piece) :
    extractDataJpBody config f = Except.ok
      { cardNumber := f.titleSpanLast
        setID := (parseCardNumber (sanitizeCardNumber f.titleSpanLast)).setID
        setName := trimSpace piece
        side := mapGet (jpInfo f) "side".toList
        release := (parseCardNumber (sanitizeCardNumber f.titleSpanLast)).release
        releasePackID := (parseCardNumber (sanitizeCardNumber f.titleSpanLast)).releasePackID
        id := (parseCardNumber (sanitizeCardNumber f.titleSpanLast)).id
        language := "JP".toList
        type := mapGet (jpInfo f) "type".toList
        name := trimSpace f.titleSpanFirst
        level := filterDash (mapGet (jpInfo f) "level".toList)
        flavorText := mapGet (jpInfo f) "flavourText".toList
        color := mapGet (jpInfo f) "color".toList
        power := filterDash (mapGet (jpInfo f) "power".toList)
        cost := filterDash (mapGet (jpInfo f) "cost".toList)
        rarity := mapGet (jpInfo f) "rarity".toList
        text := extractAbilities f.abilityNode
        version := CardModelVersion
        imageURL := joinPathModel config.baseURL f.imageSrc
        traits := if mapGet (jpInfo f) "specialAttribute".toList ≠ []
          then splitOnList "・".toList (mapGet (jpInfo f) "specialAttribute".toList) else []
        triggers := if mapGet (jpInfo f) "trigger".toList ≠ []
          then splitOnList " ".toList (mapGet (jpInfo f) "trigger".toList) else []
        soul := if mapGet (jpInfo f) "type".toList = "CH".toList
          then mapGet (jpInfo f) "soul".toList else [] } := by
  simp only [extractDataJpBody, h]
  split <;> split <;> split <;> rfl

/-- The JP extractor body panics exactly when the `") -"` separator is
missing from the `h4` heading. -/
theorem extractDataJpBody_panic (config : siteConfig) (f : JpFragment)
    (h : (splitOnList ") -".toList f.h4Text).get? 1 = none) :
    extractDataJpBody config f = Except.error GoPanic.indexOutOfRange := by
  simp only [extractDataJpBody, h]

theorem replaceCharN_zero (t : Str) (old new : Char) :
    replaceCharN t old new 0 = t := by
  induction t with
  | nil => rfl
  | cons c r ih => simp [replaceCharN, ih]

theorem replaceCharN_all (t : Str) (n : Nat) (h : t.count '+' ≤ n) :
    replaceCharN t '+' ' ' n = t.map plusToSpace := by
  induction t generalizing n with
  | nil => rfl
  | cons c r ih =>
    by_cases hc : c = '+'
    · subst hc
      rw [List.count_cons_self] at h
      have hn : 0 < n := by omega
      simp [replaceCharN, hn, ih (n - 1) (by omega), plusToSpace]
    · rw [List.count_cons_of_ne (Ne.symm hc)] at h
      simp [replaceCharN, hc, ih n h, plusToSpace]

theorem replaceCharN_keep_last (u : Str) :
    replaceCharN (u ++ ['+']) '+' ' ' (u.count '+') = u.map plusToSpace ++ ['+'] := by
  induction u with
  | nil => simp [replaceCharN]
  | cons c r ih =>
    by_cases hc : c = '+'
    · subst hc
      rw [List.count_cons_self]
      simp [replaceCharN, plusToSpace, ih]
    · rw [List.count_cons_of_ne (Ne.symm hc)]
      simp [replaceCharN, hc, plusToSpace, ih]

theorem map_plusToSpace_id (t : Str) (h : '+' ∉ t) : t.map plusToSpace = t := by
  induction t with
  | nil => rfl
  | cons c r ih =>
    simp only [List.mem_cons, not_or] at h
    have hc : c ≠ '+' := fun hc => h.1 hc.symm
    simp [plusToSpace, hc, ih h.2]

/-- The second pass of `sanitizeCardNumber` (count / last-index /
bounded-replace) is the specified "every non-final `+` becomes a space"
transformation. -/
theorem sanitize_eq_plusExceptTrailing (s : Str) :
    sanitizeCardNumber s = plusExceptTrailing (replace2B s) := by
  unfold sanitizeCardNumber plusExceptTrailing
  generalize replace2B s = t
  rcases t.eq_nil_or_concat with rfl | ⟨u, a, rfl⟩
  · rfl
  · simp only [List.concat_eq_append]
    by_cases ha : a = '+'
    · subst ha
      have hcount : (u ++ ['+']).count '+' = u.count '+' + 1 := by
        simp [List.count_append]
      have hg : (u ++ ['+']).getLast? = some '+' := by
        simp [List.getLast?_concat]
      rw [hcount, if_pos (by omega), if_pos hg, if_pos hg, List.dropLast_concat]
      simpa using replaceCharN_keep_last u
    · have hsome : ¬ ((u ++ [a]).getLast? = some '+') := by
        simpa [List.getLast?_concat] using ha
      rw [if_neg hsome, if_neg hsome]
      by_cases hcnt : 0 < (u ++ [a]).count '+'
      · rw [if_pos hcnt]
        exact replaceCharN_all _ _ le_rfl
      · rw [if_neg hcnt]
        refine (map_plusToSpace_id _ ?_).symm
        intro hm
        exact hcnt (List.count_pos_iff.mpr hm)

theorem iterateReplace_cons_text (n : Nat) (s : Str) (r : List Inline) :
    iterateReplace n (Inline.text s :: r) = Inline.text s :: iterateReplace n r := by
  induction n generalizing r with
  | zero => rfl
  | succ n ih => simp [iterateReplace, replaceFirstImg, ih]

theorem iterateReplace_cons_br (n : Nat) (r : List Inline) :
    iterateReplace n (Inline.br :: r) = Inline.br :: iterateReplace n r := by
  induction n generalizing r with
  | zero => rfl
  | succ n ih => simp [iterateReplace, replaceFirstImg, ih]

/-- Replacing the icons one at a time, in document order, is the
simultaneous rewrite of every icon. -/
theorem rewriteIconsSeq_eq_all (l : List Inline) :
    rewriteIconsSeq l = rewriteIconsAll l := by
  induction l with
  | nil => rfl
  | cons x r ih =>
    cases x with
    | text s =>
      have hcount : countImgs (Inline.text s :: r) = countImgs r := by
        simp [countImgs]
      simp [rewriteIconsSeq, rewriteIconsAll, hcount, iterateReplace_cons_text]
      simpa [rewriteIconsSeq, rewriteIconsAll] using ih
    | br =>
      have hcount : countImgs (Inline.br :: r) = countImgs r := by
        simp [countImgs]
      simp [rewriteIconsSeq, rewriteIconsAll, hcount, iterateReplace_cons_br]
      simpa [rewriteIconsSeq, rewriteIconsAll] using ih
    | img u =>
      have hcount : countImgs (Inline.img u :: r) = countImgs r + 1 := by
        simp [countImgs]
      simp only [rewriteIconsSeq, rewriteIconsAll, hcount, iterateReplace,
        replaceFirstImg, List.map_cons, iterateReplace_cons_text]
      simpa [rewriteIconsSeq, rewriteIconsAll] using ih

theorem breakOn_isSome_singleton (c : Char) (s : Str) :
    containsSub [c] s = true ↔ c ∈ s := by
  induction s with
  | nil => simp [containsSub, breakOn]
  | cons d r ih =>
    by_cases hdc : c = d
    · subst hdc
      simp [containsSub, breakOn, startsWithL, List.isPrefixOf]
    · simp only [containsSub, breakOn, startsWithL, List.isPrefixOf, List.mem_cons]
      rw [show (c == d) = false from beq_eq_false_iff_ne.mpr hdc]
      simpa [containsSub, hdc, Ne.symm hdc] using ih

theorem splitLastDash_eq (x b c : Str) (h : splitLastDash x = some (b, c)) :
    x = b ++ '-' :: c := by
  induction x generalizing b c with
  | nil => simp [splitLastDash] at h
  | cons d r ih =>
    simp only [splitLastDash] at h
    cases hr : splitLastDash r with
    | some p =>
      obtain ⟨b0, a0⟩ := p
      rw [hr] at h
      simp only [Option.some_inj, Prod.mk.injEq] at h
      obtain ⟨hb, hc⟩ := h
      subst hb
      subst hc
      simp [ih b0 a0 hr]
    | none =>
      rw [hr] at h
      by_cases hd : d = '-'
      · subst hd
        simp at h
        obtain ⟨hb, hc⟩ := h
        subst hb hc
        simp
      · simp [hd] at h

theorem dropLast_append_of_getLast? (l : Str) (a : Char) (h : l.getLast? = some a) :
    l = l.dropLast ++ [a] := by
  rcases l.eq_nil_or_concat with rfl | ⟨u, b, rfl⟩
  · simp at h
  · simp only [List.concat_eq_append, List.getLast?_concat] at h ⊢
    simp at h
    subst h
    simp

theorem matchTail_inversion (T B C : Str) (h : matchTail T = some (B, C)) :
    ∃ C2 plus, T = (B ++ '-' :: C2) ++ plus ∧ C = C2 ++ plus ∧
      B ≠ [] ∧ B.all isAlnumHyphen ∧ C2 ≠ [] ∧ C2.all isAlnum ∧
      (plus = [] ∨ plus = ['+']) := by
  simp only [matchTail] at h
  split at h
  · rename_i b0 c0 heq
    split at h
    · rename_i hcond
      simp only [Option.some_inj, Prod.mk.injEq] at h
      obtain ⟨hb, hc⟩ := h
      subst hb
      by_cases hp : T.getLast? = some '+'
      · rw [if_pos hp] at heq
        refine ⟨c0, ['+'], ?_, ?_, hcond.1, hcond.2.1, hcond.2.2.1, hcond.2.2.2, Or.inr rfl⟩
        · rw [show (b0 ++ '-' :: c0) = T.dropLast from (splitLastDash_eq _ _ _ heq).symm]
          exact dropLast_append_of_getLast? T '+' hp
        · rw [← hc, if_pos hp]
      · rw [if_neg hp] at heq
        refine ⟨c0, [], ?_, ?_, hcond.1, hcond.2.1, hcond.2.2.1, hcond.2.2.2, Or.inl rfl⟩
        · simpa using (splitLastDash_eq _ _ _ heq)
        · rw [← hc, if_neg hp]
    · simp at h
  · simp at h

theorem matchCardSuffixFull_inversion (s A B C : Str)
    (h : matchCardSuffixFull s = some (A, B, C)) :
    A = s.takeWhile isAlnum ∧ A ≠ [] ∧
      ∃ T, s.drop A.length = '/' :: T ∧ matchTail T = some (B, C) := by
  simp only [matchCardSuffixFull] at h
  split at h
  · rename_i j1 j2 T0 hh tl hd ha
    cases hm : matchTail T0 with
    | none => rw [hm] at h; simp at h
    | some p =>
      obtain ⟨b0, c0⟩ := p
      rw [hm] at h
      simp only [Option.map_some', Option.some_inj, Prod.mk.injEq] at h
      obtain ⟨hA, hB, hC⟩ := h
      subst hB
      subst hC
      refine ⟨hA.symm, ?_, T0, ?_, hm⟩
      · rw [hA.symm, ha]
        simp
      · rw [hA.symm, hd]
  · simp at h

theorem not_mem_of_all_pred (l : Str) (p : Char → Bool) (c : Char)
    (hall : l.all p = true) (hc : p c = false) : c ∉ l := by
  intro hm
  have := List.all_eq_true.mp hall c hm
  rw [hc] at this
  exact Bool.noConfusion this

theorem replace2B_id (s : Str) (h : '%' ∉ s) : replace2B s = s := by
  induction s with
  | nil => rfl
  | cons c r ih =>
    simp only [List.mem_cons, not_or] at h
    have hc : c ≠ '%' := fun hcc => h.1 hcc.symm
    rw [replace2B.eq_def]
    split
    · rename_i r3 heq
      injection heq with h1 h2
      exact absurd h1 hc
    · rename_i j1 c2 r2 j2 heq
      injection heq with h1 h2
      subst h1
      subst h2
      exact congrArg (c :: ·) (ih h.2)
    · rename_i j1 heq
      exact absurd heq (List.cons_ne_nil c r)

theorem takeWhile_decomp (p : Char → Bool) (s : Str) :
    s = s.takeWhile p ++ s.drop (s.takeWhile p).length := by
  have h2 := List.drop_left (s.takeWhile p) (s.dropWhile p)
  rw [List.takeWhile_append_dropWhile] at h2
  rw [h2, List.takeWhile_append_dropWhile]

theorem mem_slash_of_matchCardSuffixFull (s : Str) (m : Str × Str × Str)
    (h : matchCardSuffixFull s = some m) : '/' ∈ s := by
  obtain ⟨A, B, C⟩ := m
  obtain ⟨hA, hAne, T, hd, hmt⟩ := matchCardSuffixFull_inversion s A B C h
  have : '/' ∈ s.drop A.length := by rw [hd]; exact List.mem_cons_self _ _
  exact List.drop_subset _ s this

theorem findCardSuffix_none_of_no_slash (s : Str) (h : '/' ∉ s) :
    findCardSuffix s = none := by
  induction s with
  | nil => rfl
  | cons c r ih =>
    simp only [List.mem_cons, not_or] at h
    have h2 : '/' ∉ c :: r := by
      simp only [List.mem_cons, not_or]
      exact h
    rw [findCardSuffix]
    cases hm : matchCardSuffixFull (c :: r) with
    | some m => exact absurd (mem_slash_of_matchCardSuffixFull _ _ hm) h2
    | none => exact ih h.2

/-- With no `/` in the (sanitized) card number, both the strict and the
permissive decomposition fail and every derived field stays empty. -/
theorem parseCardNumber_no_slash (cn : Str) (h : containsSub ['/'] cn = false) :
    parseCardNumber cn = {} := by
  have hmem : '/' ∉ cn := by
    intro hm
    rw [(breakOn_isSome_singleton '/' cn).mpr hm] at h
    exact Bool.noConfusion h
  unfold parseCardNumber
  rw [findCardSuffix_none_of_no_slash cn hmem, h]
  simp

theorem findCardSuffix_of_full_match (s : Str) (m : Str × Str × Str)
    (h : matchCardSuffixFull s = some m) : findCardSuffix s = some m := by
  cases s with
  | nil => exact absurd h (by rw [show matchCardSuffixFull [] = none from rfl]; simp)
  | cons c r => rw [findCardSuffix, h]

theorem full_match_decomp (s A B C : Str) (h : matchCardSuffixFull s = some (A, B, C)) :
    ∃ C2 plus, s = A ++ '/' :: ((B ++ '-' :: C2) ++ plus) ∧ C = C2 ++ plus ∧
      A ≠ [] ∧ A.all isAlnum ∧ B ≠ [] ∧ B.all isAlnumHyphen ∧
      C2 ≠ [] ∧ C2.all isAlnum ∧ (plus = [] ∨ plus = ['+']) := by
  obtain ⟨hA, hAne, T, hd, hmt⟩ := matchCardSuffixFull_inversion s A B C h
  obtain ⟨C2, plus, hT, hC, hBne, hBall, hC2ne, hC2all, hplus⟩ :=
    matchTail_inversion T B C hmt
  refine ⟨C2, plus, ?_, hC, hAne, ?_, hBne, hBall, hC2ne, hC2all, hplus⟩
  · have hdecomp := takeWhile_decomp isAlnum s
    rw [← hA] at hdecomp
    rw [hdecomp, hd, hT]
  · rw [hA]
    exact List.all_takeWhile

theorem sanitize_id_of_full_match (s A B C : Str)
    (h : matchCardSuffixFull s = some (A, B, C)) :
    sanitizeCardNumber s = s := by
  obtain ⟨C2, plus, hs, hC, hAne, hAall, hBne, hBall, hC2ne, hC2all, hplus⟩ :=
    full_match_decomp s A B C h
  have nA := not_mem_of_all_pred A isAlnum '%' hAall (by decide)
  have nB := not_mem_of_all_pred B isAlnumHyphen '%' hBall (by decide)
  have nC := not_mem_of_all_pred C2 isAlnum '%' hC2all (by decide)
  have hmem : '%' ∉ s := by
    rw [hs]
    intro hm
    rcases List.mem_append.mp hm with hA | hrest
    · exact nA hA
    rcases List.mem_cons.mp hrest with hsl | hrest2
    · exact absurd hsl (by decide)
    rcases List.mem_append.mp hrest2 with hBC | hpl
    · rcases List.mem_append.mp hBC with hB | hdc
      · exact nB hB
      rcases List.mem_cons.mp hdc with hda | hC2m
      · exact absurd hda (by decide)
      · exact nC hC2m
    · rcases hplus with rfl | rfl
      · exact absurd hpl (List.not_mem_nil _)
      · rcases List.mem_cons.mp hpl with hpp | hnil
        · exact absurd hpp (by decide)
        · exact absurd hnil (List.not_mem_nil _)
  have hA0 : A.count '+' = 0 :=
    List.count_eq_zero.mpr (not_mem_of_all_pred A isAlnum '+' hAall (by decide))
  have hB0 : B.count '+' = 0 :=
    List.count_eq_zero.mpr (not_mem_of_all_pred B isAlnumHyphen '+' hBall (by decide))
  have hC20 : C2.count '+' = 0 :=
    List.count_eq_zero.mpr (not_mem_of_all_pred C2 isAlnum '+' hC2all (by decide))
  have hcnt : s.count '+' = plus.length := by
    rw [hs]
    rcases hplus with rfl | rfl <;>
      simp [List.count_append, List.count_cons, hA0, hB0, hC20]
  simp only [sanitizeCardNumber]
  rw [replace2B_id s hmem, hcnt]
  rcases hplus with rfl | rfl
  · rfl
  · have hlast : s.getLast? = some '+' := by
      rw [hs, show A ++ '/' :: ((B ++ '-' :: C2) ++ ['+']) =
        (A ++ '/' :: (B ++ '-' :: C2)) ++ ['+'] from by simp]
      exact List.getLast?_concat _
    rw [if_pos (by simp), if_pos hlast]
    simpa using replaceCharN_zero s '+' ' '

theorem hasCodeDigit_of_matchReleaseAt (x : Str) (m : Str × Str)
    (h : matchReleaseAt x = some m) : hasCodeDigit x = true := by
  induction x generalizing m with
  | nil => exact absurd h (by simp [matchReleaseAt])
  | cons c r ih =>
    simp only [matchReleaseAt] at h
    by_cases hcode : (c :: r).takeWhile isAlphaHyphen = []
    · rw [if_pos hcode] at h
      exact absurd h (by simp)
    · rw [if_neg hcode] at h
      have hc : isAlphaHyphen c = true := by
        by_contra hcf
        exact hcode (by simp [List.takeWhile_cons,
          Bool.eq_false_iff.mpr hcf])
      rw [List.takeWhile_cons, if_pos hc] at h
      simp only [List.length_cons, List.drop_succ_cons] at h
      by_cases hpack :
          (r.drop (r.takeWhile isAlphaHyphen).length).takeWhile isDigit = []
      · rw [if_pos hpack] at h
        exact absurd h (by simp)
      · rw [if_neg hpack] at h
        by_cases htwr : r.takeWhile isAlphaHyphen = []
        · rw [htwr] at hpack
          simp only [List.length_nil, List.drop_zero] at hpack
          cases hr : r with
          | nil => rw [hr] at hpack; simp at hpack
          | cons d r2 =>
            rw [hr] at hpack
            have hd : isDigit d = true := by
              by_contra hdf
              exact hpack (by simp [List.takeWhile_cons, Bool.eq_false_iff.mpr hdf])
            rw [hasCodeDigit]
            simp [hc, hd]
        · have hmr : matchReleaseAt r = some (r.takeWhile isAlphaHyphen,
              (r.drop (r.takeWhile isAlphaHyphen).length).takeWhile isDigit) := by
            simp only [matchReleaseAt]
            rw [if_neg htwr, if_neg hpack]
          have := ih _ hmr
          cases hr : r with
          | nil => rw [hr] at htwr; exact absurd rfl htwr
          | cons d r2 =>
            rw [hasCodeDigit]
            rw [hr] at this
            simp [this]

theorem findRelease_none_of_no_pair (rel : Str) (h : hasCodeDigit rel = false) :
    findRelease rel = none := by
  induction rel with
  | nil => rfl
  | cons c r ih =>
    rw [findRelease]
    cases hm : matchReleaseAt (c :: r) with
    | some m =>
      rw [hasCodeDigit_of_matchReleaseAt _ _ hm] at h
      exact Bool.noConfusion h
    | none =>
      cases r with
      | nil => rfl
      | cons d r2 =>
        rw [hasCodeDigit, Bool.or_eq_false_iff] at h
        exact ih h.2

/-- No letter-or-hyphen directly followed by a digit: the release regexp
cannot match and the pack id is empty. -/
theorem relPackID_empty_of_no_pair (rel : Str) (h : hasCodeDigit rel = false) :
    relPackID rel = [] := by
  unfold relPackID
  rw [findRelease_none_of_no_pair rel h]

set_option maxHeartbeats 1000000 in
theorem unescapeHtml_ne_nil (l : Str) (h : l ≠ []) : unescapeHtml l ≠ [] := by
  cases l with
  | nil => exact absurd rfl h
  | cons c r =>
    rw [unescapeHtml.eq_def]
    split <;> simp_all

/-- C1: for a site configuration whose language code is EN or JP,
`extractData` returns exactly one Card for every item fragment; each
extractor runs its body under the recover guard, and a recovered panic
still yields a (zero-valued, partially populated) Card instead of
propagating. -/
theorem c1_extractData_total_and_recovers (config : siteConfig) (sel : Selection)
    (_h : config.languageCode = "EN".toList ∨ config.languageCode = "JP".toList) :
    (∃! c : Card, extractData config sel = c) ∧
    (config.languageCode = "EN".toList →
      extractData config sel = recoverCard (extractDataEnBody config sel.en)) ∧
    (config.languageCode = "JP".toList →
      extractData config sel = recoverCard (extractDataJpBody config sel.jp)) ∧
    (∀ e : GoPanic, recoverCard (Except.error e) = {}) := by
  refine ⟨⟨extractData config sel, rfl, fun y hy => hy.symm⟩, ?_, ?_, fun e => rfl⟩
  · intro hEN
    unfold extractData
    rw [if_pos hEN]
    rfl
  · intro hJP
    have hne : config.languageCode ≠ "EN".toList := by
      rw [hJP]; decide
    unfold extractData
    rw [if_neg hne, if_pos hJP]
    rfl

/-- C1 witness: a concrete JP fragment whose set-name step panics; the
panic is recovered and `extractData` still returns exactly one Card (the
zero Card). -/
theorem c1_witness :
    (∃! c : Card, extractData jpSiteConfig { jp := panicJpFragment } = c) ∧
    extractDataJpBody jpSiteConfig panicJpFragment = Except.error GoPanic.indexOutOfRange ∧
    extractData jpSiteConfig { jp := panicJpFragment } = {} :=
  ⟨(c1_extractData_total_and_recovers jpSiteConfig { jp := panicJpFragment }
      (Or.inr rfl)).1, rfl, rfl⟩

/-- C2: `Boosters` leaves the reducer's `boosterMap` as a Go nil map, so
consuming the very first card panics (`assignment to entry in nil map`)
instead of producing the grouped map; only the empty stream survives. -/
theorem c2_boosters_nil_map_panics :
    boostersRun [sampleCard] = Except.error GoPanic.assignToNilMap ∧
    boostersRun [] = Except.ok none :=
  ⟨rfl, rfl⟩

/-- C3 counterexample: the JP extractor stores the raw title span as
`CardNumber`, not the sanitized identifier, so a card number with a stray
inline `+` is kept un-sanitized. -/
theorem c3_counterexample :
    (extractDataJp jpSiteConfig rwbyJpFragment).cardNumber = "RWBY/BRO2021-01+PR".toList ∧
    sanitizeCardNumber "RWBY/BRO2021-01+PR".toList = "RWBY/BRO2021-01 PR".toList ∧
    (extractDataJp jpSiteConfig rwbyJpFragment).cardNumber ≠
      sanitizeCardNumber "RWBY/BRO2021-01+PR".toList := by
  refine ⟨rfl, rfl, by decide⟩

/-- C3 (amended): the EN extractor stores the sanitized identifier as
`CardNumber`; the JP extractor preserves the raw title span verbatim and
uses the sanitized string only for decomposition; and when the
(sanitized) identifier contains no `/`, all four derived fields are
empty. -/
theorem c3_amended_cardNumber_preservation :
    (∀ config f, (extractDataEn config f).cardNumber = sanitizeCardNumber f.numberText) ∧
    (∀ config f c, extractDataJpBody config f = Except.ok c →
      c.cardNumber = f.titleSpanLast) ∧
    (∀ cn, containsSub ['/'] cn = false → parseCardNumber cn = {}) := by
  refine ⟨?_, ?_, parseCardNumber_no_slash⟩
  · intro config f
    rw [extractDataEn_eq]
  · intro config f c h
    cases hq : (splitOnList ") -".toList f.h4Text).get? 1 with
    | none =>
      rw [extractDataJpBody_panic config f hq] at h
      exact Except.noConfusion h
    | some piece =>
      rw [extractDataJpBody_eq config f piece hq] at h
      injection h with h2
      rw [← h2]

/-- C3 witness: the amended statement applied to the concrete JP
fragment and to an identifier with no `/`. -/
theorem c3_witness :
    (extractDataJp jpSiteConfig rwbyJpFragment).cardNumber = rwbyJpFragment.titleSpanLast ∧
    parseCardNumber "nope".toList = {} :=
  ⟨(c3_amended_cardNumber_preservation).2.1 jpSiteConfig rwbyJpFragment _ rfl,
   (c3_amended_cardNumber_preservation).2.2 "nope".toList (by decide)⟩

/-- C4: `sanitizeCardNumber` first restores percent-encoded `+`, then
replaces every `+` that is not in the final position by a space while a
lone trailing `+` is preserved; in particular on the two documented
examples. -/
theorem c4_sanitize_spec :
    (∀ s : Str, sanitizeCardNumber s = plusExceptTrailing (replace2B s)) ∧
    sanitizeCardNumber "TSK/S82-E070SSP%2B".toList = "TSK/S82-E070SSP+".toList ∧
    sanitizeCardNumber "RWBY/BRO2021-01+PR".toList = "RWBY/BRO2021-01 PR".toList :=
  ⟨sanitize_eq_plusExceptTrailing, by decide, by decide⟩

/-- C5 counterexample: for the strict-pattern identifier `A/W63X-001`
the release `W63X` has no trailing digits (its last character is the
non-digit `X`), yet `parseCardNumber` returns the non-empty pack id `63`
(the leftmost and not necessarily trailing digit run of the release). -/
theorem c5_counterexample :
    parseCardNumber "A/W63X-001".toList =
      { setID := "A".toList, release := "W63X".toList,
        releasePackID := "63".toList, id := "001".toList } ∧
    "W63X".toList.getLast? = some 'X' ∧ isDigit 'X' = false ∧
    "63".toList ≠ ([] : Str) :=
  ⟨rfl, rfl, rfl, by decide⟩

/-- C5 (amended): the strict pattern's groups are always preferred when
it matches; the release is decomposed by the leftmost match of a
letter-or-hyphen run followed directly by a digit run, whose digit run is
the pack id (for code-then-digits releases this is the trailing digit
run, e.g. `BSL2021` yields `2021` and `W63` yields `63`); when the
release contains no letter-or-hyphen directly followed by a digit, the
pack id is empty. -/
theorem c5_amended_parse_strict :
    (∀ s r, matchCardSuffixFull s = some r →
      parseCardNumber s =
        { setID := r.1, release := r.2.1, releasePackID := relPackID r.2.1, id := r.2.2 }) ∧
    relPackID "BSL2021".toList = "2021".toList ∧
    relPackID "W63".toList = "63".toList ∧
    (∀ rel, hasCodeDigit rel = false → relPackID rel = []) := by
  refine ⟨?_, rfl, rfl, relPackID_empty_of_no_pair⟩
  intro s r h
  obtain ⟨A, B, C⟩ := r
  unfold parseCardNumber
  rw [findCardSuffix_of_full_match s _ h]

/-- C5 witness: the amended statement applied to a standard identifier
and to a digit-free release code. -/
theorem c5_witness :
    parseCardNumber "FS/BCS2019-03".toList =
      { setID := "FS".toList, release := "BCS2019".toList,
        releasePackID := relPackID "BCS2019".toList, id := "03".toList } ∧
    relPackID "PR".toList = [] :=
  ⟨c5_amended_parse_strict.1 "FS/BCS2019-03".toList
      ("FS".toList, "BCS2019".toList, "03".toList) rfl,
   c5_amended_parse_strict.2.2.2 "PR".toList rfl⟩

/-- C6: for every raw card number fully matching the strict pattern,
sanitization is the identity on it and the parse of the sanitized string
yields a non-empty set id and a non-empty sequence id. -/
theorem c6_roundtrip (raw A B C : Str)
    (h : matchCardSuffixFull raw = some (A, B, C)) :
    (parseCardNumber (sanitizeCardNumber raw)).setID ≠ [] ∧
    (parseCardNumber (sanitizeCardNumber raw)).id ≠ [] := by
  obtain ⟨C2, plus, hs, hC, hAne, hAall, hBne, hBall, hC2ne, hC2all, hplus⟩ :=
    full_match_decomp raw A B C h
  rw [sanitize_id_of_full_match raw A B C h]
  have hparse := c5_amended_parse_strict.1 raw (A, B, C) h
  rw [hparse]
  refine ⟨hAne, ?_⟩
  rw [hC]
  intro hnil
  exact hC2ne (List.append_eq_nil.mp hnil).1

/-- C6 witness: the round trip on a concrete strict-pattern identifier. -/
theorem c6_witness :
    (parseCardNumber (sanitizeCardNumber "FS/BCS2019-03".toList)).setID ≠ [] ∧
    (parseCardNumber (sanitizeCardNumber "FS/BCS2019-03".toList)).id ≠ [] :=
  c6_roundtrip "FS/BCS2019-03".toList "FS".toList "BCS2019".toList "03".toList rfl

/-- C7: a numeric field whose source text is the dash placeholder is
normalized to the empty string and never to `"0"`: `filterDash` erases
the dash placeholder, and both extractors route the level, cost and
power source values through `filterDash` when assembling the Card. -/
theorem c7_dash_normalization :
    filterDash "-".toList = [] ∧ filterDash "-".toList ≠ "0".toList ∧
    (∀ config f,
      (extractDataEn config f).level = filterDash (mapGet (enInfoF f) "level".toList) ∧
      (extractDataEn config f).cost = filterDash (mapGet (enInfoF f) "cost".toList) ∧
      (extractDataEn config f).power = filterDash (mapGet (enInfoF f) "power".toList)) ∧
    (∀ config f c, extractDataJpBody config f = Except.ok c →
      c.level = filterDash (mapGet (jpInfo f) "level".toList) ∧
      c.cost = filterDash (mapGet (jpInfo f) "cost".toList) ∧
      c.power = filterDash (mapGet (jpInfo f) "power".toList)) := by
  refine ⟨rfl, by decide, ?_, ?_⟩
  · intro config f
    rw [extractDataEn_eq]
    exact ⟨rfl, rfl, rfl⟩
  · intro config f c h
    cases hq : (splitOnList ") -".toList f.h4Text).get? 1 with
    | none =>
      rw [extractDataJpBody_panic config f hq] at h
      exact Except.noConfusion h
    | some piece =>
      rw [extractDataJpBody_eq config f piece hq] at h
      injection h with h2
      rw [← h2]
      exact ⟨rfl, rfl, rfl⟩

/-- C7 witness: the JP conjunct applied to the concrete climax fixture,
whose level, cost and power source texts are the dash placeholder. -/
theorem c7_witness :
    (extractDataJp jpSiteConfig cxJpFragment).level =
      filterDash (mapGet (jpInfo cxJpFragment) "level".toList) ∧
    (extractDataJp jpSiteConfig cxJpFragment).cost =
      filterDash (mapGet (jpInfo cxJpFragment) "cost".toList) ∧
    (extractDataJp jpSiteConfig cxJpFragment).power =
      filterDash (mapGet (jpInfo cxJpFragment) "power".toList) :=
  c7_dash_normalization.2.2.2 jpSiteConfig cxJpFragment _ rfl

/-- C8 counterexample: the extractors gate only `soul` on the Character
type; `power` is merely dash-filtered, so an Event fragment carrying a
concrete Power value yields a non-Character card with non-empty power. -/
theorem c8_counterexample :
    (extractDataEn enSiteConfig evPowerEnFragment).type = "EV".toList ∧
    (extractDataEn enSiteConfig evPowerEnFragment).type ≠ "CH".toList ∧
    (extractDataEn enSiteConfig evPowerEnFragment).power = "5000".toList ∧
    (extractDataEn enSiteConfig evPowerEnFragment).power ≠ [] :=
  ⟨rfl, by decide, rfl, by decide⟩

/-- C8 (amended): `soul` is populated only on Character cards (a card
whose type is not `CH` always has empty soul, in both extractors), while
`power` is only dash-normalized and not gated by the type; the JP climax
fixture yields type `CX` with soul, level and cost all empty. -/
theorem c8_amended_character_gating :
    (∀ config f, (extractDataEn config f).type ≠ "CH".toList →
      (extractDataEn config f).soul = []) ∧
    (∀ config f c, extractDataJpBody config f = Except.ok c →
      c.type ≠ "CH".toList → c.soul = []) ∧
    ((extractData jpSiteConfig { jp := cxJpFragment }).type = "CX".toList ∧
     (extractData jpSiteConfig { jp := cxJpFragment }).soul = [] ∧
     (extractData jpSiteConfig { jp := cxJpFragment }).level = [] ∧
     (extractData jpSiteConfig { jp := cxJpFragment }).cost = []) := by
  refine ⟨?_, ?_, rfl, rfl, rfl, rfl⟩
  · intro config f h
    rw [extractDataEn_eq] at h ⊢
    exact if_neg h
  · intro config f c hbody h
    cases hq : (splitOnList ") -".toList f.h4Text).get? 1 with
    | none =>
      rw [extractDataJpBody_panic config f hq] at hbody
      exact Except.noConfusion hbody
    | some piece =>
      rw [extractDataJpBody_eq config f piece hq] at hbody
      injection hbody with h2
      rw [← h2] at h ⊢
      exact if_neg h

/-- C8 witness: the amended soul gating applied to the concrete Event
fragment. -/
theorem c8_witness :
    (extractDataEn enSiteConfig evPowerEnFragment).soul = [] :=
  c8_amended_character_gating.1 enSiteConfig evPowerEnFragment (by decide)

/-- C9: `extractAbilities` rewrites each inline icon one at a time in
document order — equivalently, all icons simultaneously — into the
bracketed token of the fixed icon table, preserving surrounding text, and
only then splits the node's markup on `<br/>`, trimming lines and
discarding the empty ones; the icon lookup is total, an unmapped stem
giving the empty symbolic name `[]`. -/
theorem c9_extractAbilities_spec :
    (∀ node, extractAbilities node =
      (((splitOnList "<br/>".toList (renderNode (rewriteIconsAll node))).map
        trimSpace).filter (fun l => l ≠ [])).map unescapeHtml) ∧
    (∀ u, triggersMap.find? (fun p => p.1 == stem u) = none →
      iconToken u = "[]".toList) ∧
    (∀ node, [] ∉ extractAbilities node) := by
  refine ⟨?_, ?_, ?_⟩
  · intro node
    unfold extractAbilities
    rw [rewriteIconsSeq_eq_all]
  · intro u h
    unfold iconToken triggersMapGet
    rw [h]
    rfl
  · intro node hm
    unfold extractAbilities at hm
    rw [List.mem_map] at hm
    obtain ⟨l, hl, hequ⟩ := hm
    rw [List.mem_filter] at hl
    have hlne : l ≠ [] := by
      have := hl.2
      simpa using this
    exact unescapeHtml_ne_nil l hlne hequ

/-- C9 witness: an unmapped icon stem degrades silently to the empty
bracketed token. -/
theorem c9_witness : iconToken "unknown.gif".toList = "[]".toList :=
  c9_extractAbilities_spec.2.1 "unknown.gif".toList rfl

/-- C10: processing one URL from the task's page queue, the fetch worker
makes at most 3 attempts; every retry attempt `i > 0` is preceded by a
wait of `i * baseBackoffDelay` plus the drawn jitter, which (being drawn
from `[0, i*baseBackoffDelay/2)`) keeps each wait linear in `i`; an error
message matching a recognized transient substring takes the same
ban-and-retry path as any other failure; if all attempts fail the URL is
re-enqueued on the same task's queue; and the first 200 response is
forwarded downstream exactly once. -/
theorem c10_pageFetchWorker_retry (oracle : Nat → AttemptOutcome)
    (jitter : Nat → Nat) (link : Str)
    (hj : ∀ i, 1 ≤ i → jitter i < i * baseBackoffDelay / 2) :
    (pageFetchWorkerLink oracle jitter link).attemptsMade ≤ maxRetries ∧
    (pageFetchWorkerLink oracle jitter link).waits =
      (List.range ((pageFetchWorkerLink oracle jitter link).attemptsMade - 1)).map
        (fun k => (k + 1) * baseBackoffDelay + jitter (k + 1)) ∧
    (∀ w ∈ (pageFetchWorkerLink oracle jitter link).waits, ∃ i, 1 ≤ i ∧
      i < maxRetries ∧ w = i * baseBackoffDelay + jitter i ∧
      i * baseBackoffDelay ≤ w ∧ w < i * baseBackoffDelay + i * baseBackoffDelay / 2) ∧
    (∀ msg, attemptEffect (AttemptOutcome.err msg) = AttemptEffect.continueBan) ∧
    ((∀ i, i < maxRetries → attemptEffect (oracle i) = AttemptEffect.continueBan) →
      (pageFetchWorkerLink oracle jitter link).forwarded = [] ∧
      (pageFetchWorkerLink oracle jitter link).requeued = some link) ∧
    (∀ i, i < maxRetries → attemptEffect (oracle i) = AttemptEffect.forwardReadd →
      (∀ j, j < i → attemptEffect (oracle j) = AttemptEffect.continueBan) →
      (pageFetchWorkerLink oracle jitter link).forwarded = [i] ∧
      (pageFetchWorkerLink oracle jitter link).requeued = none) := by
  have herr : ∀ msg, attemptEffect (AttemptOutcome.err msg) = AttemptEffect.continueBan := by
    intro msg
    simp [attemptEffect]
  have hcore : (pageFetchWorkerLink oracle jitter link).attemptsMade ≤ maxRetries ∧
      (pageFetchWorkerLink oracle jitter link).waits =
        (List.range ((pageFetchWorkerLink oracle jitter link).attemptsMade - 1)).map
          (fun k => (k + 1) * baseBackoffDelay + jitter (k + 1)) ∧
      ((∀ i, i < maxRetries → attemptEffect (oracle i) = AttemptEffect.continueBan) →
        (pageFetchWorkerLink oracle jitter link).forwarded = [] ∧
        (pageFetchWorkerLink oracle jitter link).requeued = some link) ∧
      (∀ i, i < maxRetries → attemptEffect (oracle i) = AttemptEffect.forwardReadd →
        (∀ j, j < i → attemptEffect (oracle j) = AttemptEffect.continueBan) →
        (pageFetchWorkerLink oracle jitter link).forwarded = [i] ∧
        (pageFetchWorkerLink oracle jitter link).requeued = none) := by
    rcases h0 : attemptEffect (oracle 0) with _ | _
    · rcases h1 : attemptEffect (oracle 1) with _ | _
      · rcases h2 : attemptEffect (oracle 2) with _ | _
        · have hr : pageFetchWorkerLink oracle jitter link =
              { attemptsMade := 3,
                waits := [baseBackoffDelay + jitter 1, 2 * baseBackoffDelay + jitter 2],
                forwarded := [], banCount := 3, readdCount := 0,
                requeued := some link } := by
            simp [pageFetchWorkerLink, pageFetchGo, maxRetries, h0, h1, h2]
          rw [hr]
          refine ⟨by norm_num [maxRetries], by simp [List.range_succ],
            fun hall => ⟨rfl, rfl⟩, ?_⟩
          intro i hi hfr hprev
          simp only [maxRetries] at hi
          interval_cases i
          · rw [h0] at hfr; exact AttemptEffect.noConfusion hfr
          · rw [h1] at hfr; exact AttemptEffect.noConfusion hfr
          · rw [h2] at hfr; exact AttemptEffect.noConfusion hfr
        · have hr : pageFetchWorkerLink oracle jitter link =
              { attemptsMade := 3,
                waits := [baseBackoffDelay + jitter 1, 2 * baseBackoffDelay + jitter 2],
                forwarded := [2], banCount := 2, readdCount := 1,
                requeued := none } := by
            simp [pageFetchWorkerLink, pageFetchGo, maxRetries, h0, h1, h2]
          rw [hr]
          refine ⟨by norm_num [maxRetries], by simp [List.range_succ], ?_, ?_⟩
          · intro hall
            have := hall 2 (by norm_num [maxRetries])
            rw [h2] at this
            exact AttemptEffect.noConfusion this
          · intro i hi hfr hprev
            simp only [maxRetries] at hi
            interval_cases i
            · rw [h0] at hfr; exact AttemptEffect.noConfusion hfr
            · rw [h1] at hfr; exact AttemptEffect.noConfusion hfr
            · exact ⟨rfl, rfl⟩
      · have hr : pageFetchWorkerLink oracle jitter link =
            { attemptsMade := 2, waits := [baseBackoffDelay + jitter 1],
              forwarded := [1], banCount := 1, readdCount := 1,
              requeued := none } := by
          simp [pageFetchWorkerLink, pageFetchGo, maxRetries, h0, h1]
        rw [hr]
        refine ⟨by norm_num [maxRetries], by simp [List.range_succ], ?_, ?_⟩
        · intro hall
          have := hall 1 (by norm_num [maxRetries])
          rw [h1] at this
          exact AttemptEffect.noConfusion this
        · intro i hi hfr hprev
          simp only [maxRetries] at hi
          interval_cases i
          · rw [h0] at hfr; exact AttemptEffect.noConfusion hfr
          · exact ⟨rfl, rfl⟩
          · have := hprev 1 (by norm_num)
            rw [h1] at this
            exact AttemptEffect.noConfusion this
    · have hr : pageFetchWorkerLink oracle jitter link =
          { attemptsMade := 1, waits := [], forwarded := [0], banCount := 0,
            readdCount := 1, requeued := none } := by
        simp [pageFetchWorkerLink, pageFetchGo, maxRetries, h0]
      rw [hr]
      refine ⟨by norm_num [maxRetries], by simp, ?_, ?_⟩
      · intro hall
        have := hall 0 (by norm_num [maxRetries])
        rw [h0] at this
        exact AttemptEffect.noConfusion this
      · intro i hi hfr hprev
        simp only [maxRetries] at hi
        interval_cases i
        · exact ⟨rfl, rfl⟩
        · have := hprev 0 (by norm_num)
          rw [h0] at this
          exact AttemptEffect.noConfusion this
        · have := hprev 0 (by norm_num)
          rw [h0] at this
          exact AttemptEffect.noConfusion this
  refine ⟨hcore.1, hcore.2.1, ?_, herr, hcore.2.2.1, hcore.2.2.2⟩
  intro w hw
  rw [hcore.2.1] at hw
  rw [List.mem_map] at hw
  obtain ⟨k, hk, rfl⟩ := hw
  rw [List.mem_range] at hk
  have hn := hcore.1
  refine ⟨k + 1, by omega, ?_, rfl, Nat.le_add_right _ _, ?_⟩
  · simp only [maxRetries] at hn ⊢
    omega
  · exact Nat.add_lt_add_left (hj (k + 1) (by omega)) _

/-- C10 witness: an oracle failing once with a transient message and
then succeeding, with a concrete in-range jitter. -/
theorem c10_witness :
    (pageFetchWorkerLink
      (fun i => if i = 0 then AttemptOutcome.err "read: connection reset by peer".toList
        else AttemptOutcome.resp 200)
      (fun _ => 7) "page1".toList).attemptsMade ≤ maxRetries :=
  (c10_pageFetchWorker_retry
    (fun i => if i = 0 then AttemptOutcome.err "read: connection reset by peer".toList
      else AttemptOutcome.resp 200)
    (fun _ => 7) "page1".toList
    (by
      intro i hi
      simp only [baseBackoffDelay]
      omega)).1
